import Mathlib

/-!
Verification of the hours-ledger core of the `did-you-code` time-tracking
widget (src/src/App.tsx) against its natural-language specification.

Dates are modelled as calendar-date triples (the app stores dates as
canonical zero-padded `YYYY-MM-DD` strings and compares them
lexicographically, which coincides with lexicographic order on the
(year, month, day) triple).  JS numbers holding hour counts are modelled
as rationals.  Each mutation of the entries list is modelled as a function
from the current entries (plus the current date, `today`, which the code
reads from the system clock) to the new entries paired with the optional
error message the code would display; an error always leaves the entries
untouched, exactly as in the source where the error branches `return`
before `setEntries`.
-/

namespace DidYouCode

/-- A calendar date `(year, month, day)`, month `1..12`.  Stands for the
canonical `YYYY-MM-DD` string used throughout `App.tsx`. -/
structure Date where
  year : ℕ
  month : ℕ
  day : ℕ
deriving DecidableEq, Repr

/-- Strict lexicographic order on dates; for canonical zero-padded
`YYYY-MM-DD` strings this is exactly the JS `<` string comparison. -/
def Date.blt (a b : Date) : Bool :=
  decide (a.year < b.year) ||
    (decide (a.year = b.year) &&
      (decide (a.month < b.month) ||
        (decide (a.month = b.month) && decide (a.day < b.day))))

/-- Non-strict lexicographic order on dates; the JS `<=`/`>=` string
comparison on canonical `YYYY-MM-DD` strings. -/
def Date.ble (a b : Date) : Bool :=
  decide (a.year < b.year) ||
    (decide (a.year = b.year) &&
      (decide (a.month < b.month) ||
        (decide (a.month = b.month) && decide (a.day ≤ b.day))))

/-- `interface DayEntry \x7b date: string; hours: number \x7d` -/
structure DayEntry where
  date : Date
  hours : ℚ
deriving DecidableEq, Repr

/-- `interface CalendarDay \x7b date: Date; isCurrentMonth: boolean \x7d` -/
structure CalendarDay where
  date : Date
  isCurrentMonth : Bool
deriving DecidableEq, Repr

/-- The user-visible error messages set via `setError` in App.tsx. -/
inductive LedgerError where
  /-- "Please enter a valid number of hours" -/
  | invalidInput : LedgerError
  /-- "Hours must be between 0 and 24" -/
  | outOfRange : LedgerError
  /-- "Cannot add hours for future dates or dates outside 2025" -/
  | dateOutOfWindow : LedgerError
  /-- "Cannot exceed 24 hours in a day" -/
  | cannotExceedMax : LedgerError
  /-- "Hours cannot be negative" -/
  | cannotGoNegative : LedgerError
  /-- "Cannot add hours before 2025" -/
  | beforeStart : LedgerError
  /-- "Date range cannot exceed one year" -/
  | rangeTooLarge : LedgerError
deriving DecidableEq, Repr

/-- JS `Math.round`: round to nearest integer, ties toward positive
infinity. -/
def jsRound (x : ℚ) : ℤ := ⌊x + 1/2⌋

/-- `validateAndClampHours` (App.tsx:75-77):
`Math.min(Math.max(0, Math.round(hours * 2) / 2), 24)`. -/
def validateAndClampHours (hours : ℚ) : ℚ :=
  min (max 0 ((jsRound (hours * 2) : ℚ) / 2)) 24

/-- First day of the tracked year, `2025-01-01`. -/
def startDate : Date := ⟨2025, 1, 1⟩

/-- Last day of the tracked year, `2025-12-31`. -/
def endDate : Date := ⟨2025, 12, 31⟩

/-- `isValidDate` (App.tsx:58-73).  The source normalizes the candidate to
noon UTC and compares against `2025-01-01T12:00Z`, `2025-12-31T23:59:59.999Z`
and end-of-day of `today`; at the calendar-date level those three instant
comparisons are exactly the three date comparisons below. -/
def isValidDate (today d : Date) : Bool :=
  Date.ble startDate d && Date.ble d endDate && Date.ble d today

/-- `getHoursForDate` (App.tsx:288-290):
`entries.find(entry => entry.date === date)?.hours || 0`. -/
def getHoursForDate (entries : List DayEntry) (date : Date) : ℚ :=
  ((entries.find? fun e => e.date = date).map (·.hours)).getD 0

/-- The shared update-or-append step of `handleSubmit` / `quickAdd`
(App.tsx:102-109, 174-181): `findIndex` on the date, overwrite the hours of
the first matching entry if found, otherwise append a new entry at the
end. -/
def upsert : List DayEntry → Date → ℚ → List DayEntry
  | [], date, v => [⟨date, v⟩]
  | e :: tl, date, v =>
      if e.date = date then ⟨date, v⟩ :: tl else e :: upsert tl date v

/-- `handleSubmit` (App.tsx:79-118), the manual-entry `setHours` mutation,
modelled from the point where the text field has already been parsed to a
number (the `isNaN` branch guards the string front-end, which is outside
this model).  Returns the new entries and the error message, if any; every
error branch returns before `setEntries`, so an error leaves the entries
unchanged. -/
def handleSubmit (entries : List DayEntry) (today selectedDate : Date)
    (hoursNum : ℚ) : List DayEntry × Option LedgerError :=
  let validatedHours := validateAndClampHours hoursNum
  if validatedHours = 0 ∧ hoursNum ≠ 0 then
    (entries, some .outOfRange)
  else if ¬ (isValidDate today selectedDate = true) then
    (entries, some .dateOutOfWindow)
  else
    (upsert entries selectedDate validatedHours, none)

/-- `deleteEntry` (App.tsx:120-149).  `hoursToDelete` is `Option ℚ`
(`undefined` when omitted); the JS truthiness test
`hoursToDelete && hoursToDelete < existingEntry.hours` selects the partial
branch exactly when an amount is present, nonzero, and below the current
hours.  Never reports an error. -/
def deleteEntry (entries : List DayEntry) (date : Date)
    (hoursToDelete : Option ℚ) : List DayEntry :=
  match entries.find? fun e => e.date = date with
  | none => entries
  | some existingEntry =>
      match hoursToDelete with
      | some a =>
          if a ≠ 0 ∧ a < existingEntry.hours then
            entries.map fun e =>
              if e.date = date then ⟨e.date, e.hours - a⟩ else e
          else
            entries.filter fun e => ¬ (e.date = date)
      | none => entries.filter fun e => ¬ (e.date = date)

/-- `quickAdd` (App.tsx:151-185), the `addHours(today, delta)` mutation.
The source first rejects when the clock is before 2025-01-01, then computes
the clamped candidate from today's current hours and errors (leaving the
entries unchanged) when the candidate equals the current value. -/
def quickAdd (entries : List DayEntry) (today : Date) (amount : ℚ) :
    List DayEntry × Option LedgerError :=
  if Date.blt today startDate then
    (entries, some .beforeStart)
  else
    let currentHours := getHoursForDate entries today
    let newHours := validateAndClampHours (currentHours + amount)
    if newHours = currentHours then
      (entries,
        if 0 < amount then some .cannotExceedMax
        else if amount < 0 then some .cannotGoNegative
        else none)
    else
      (upsert entries today newHours, none)

/-- Gregorian leap-year rule, as implemented by the JS `Date` object. -/
def isLeap (y : ℕ) : Bool :=
  (y % 4 == 0 && y % 100 != 0) || (y % 400 == 0)

/-- Number of days in a month (month `1..12`), as computed by the source
via `new Date(Date.UTC(year, month + 1, 0, 12)).getDate()`. -/
def daysInMonth (y m : ℕ) : ℕ :=
  if m = 2 then (if isLeap y then 29 else 28)
  else if m = 4 ∨ m = 6 ∨ m = 9 ∨ m = 11 then 30
  else 31

/-- Days in the months of year `y` strictly before month `m`. -/
def daysBeforeMonth (y m : ℕ) : ℕ :=
  ((List.range (m - 1)).map fun i => daysInMonth y (i + 1)).sum

/-- Days in the proleptic Gregorian calendar strictly before year `y`
(counted from day 1 = 0001-01-01, so this is `365*(y-1) + leap days`). -/
def daysBeforeYear (y : ℕ) : ℕ :=
  365 * (y - 1) + (y - 1) / 4 + (y - 1) / 400 - (y - 1) / 100

/-- Ordinal day number of a date: `toOrdinal ⟨1,1,1⟩ = 1`.  Models the JS
`Date` epoch arithmetic (`getTime()` millisecond differences between
date-only values are exact whole-day multiples of this ordinal). -/
def toOrdinal (d : Date) : ℕ :=
  daysBeforeYear d.year + daysBeforeMonth d.year d.month + d.day

/-- A date triple that denotes an actual calendar date: positive year,
month `1..12`, day within the month. -/
abbrev isRealDate (d : Date) : Prop :=
  1 ≤ d.year ∧ 1 ≤ d.month ∧ d.month ≤ 12 ∧ 1 ≤ d.day ∧
    d.day ≤ daysInMonth d.year d.month

/-- JS `Date.prototype.getDay`: weekday index, Sunday = 0.  0001-01-01 in
the proleptic Gregorian calendar is a Monday, i.e. JS weekday 1, and
`toOrdinal ⟨1,1,1⟩ = 1`, so the weekday is the ordinal mod 7. -/
def getDay (d : Date) : ℕ := toOrdinal d % 7

/-- `(year, month)` of the month before `(y, m)`; the source gets it from
`Date.UTC(year, month - 1, ...)` month normalization. -/
def prevMonthOf (y m : ℕ) : ℕ × ℕ :=
  if m = 1 then (y - 1, 12) else (y, m - 1)

/-- `(year, month)` of the month after `(y, m)`; from
`Date.UTC(year, month + 1, ...)` month normalization. -/
def nextMonthOf (y m : ℕ) : ℕ × ℕ :=
  if m = 12 then (y + 1, 1) else (y, m + 1)

/-- `getDaysInMonth` (App.tsx:228-268), the `monthGrid` generator.  Emits
the trailing days of the previous month down from `startingDay - 1`
(`for (let i = startingDay - 1; i >= 0; i--) push(daysInPreviousMonth - i)`,
modelled by mapping over `(List.range startingDay).reverse`), then the days
`1..daysInMonth` of the target month, then days `1..remaining` of the next
month up to 42 cells. -/
def getDaysInMonth (currentMonth : Date) : List CalendarDay :=
  let year := currentMonth.year
  let month := currentMonth.month
  let dim := daysInMonth year month
  let startingDay := getDay ⟨year, month, 1⟩
  let prev := prevMonthOf year month
  let daysInPreviousMonth := daysInMonth prev.1 prev.2
  let next := nextMonthOf year month
  ((List.range startingDay).reverse.map fun i =>
      ⟨⟨prev.1, prev.2, daysInPreviousMonth - i⟩, false⟩)
    ++ ((List.range dim).map fun i => ⟨⟨year, month, i + 1⟩, true⟩)
    ++ ((List.range (42 - (startingDay + dim))).map fun i =>
        ⟨⟨next.1, next.2, i + 1⟩, false⟩)

/-- `validateDateRange` (App.tsx:317-326).  The source parses the two
`YYYY-MM-DD` strings to UTC midnights and takes
`Math.ceil(Math.abs(end - start) / 86400000)`; for date-only values the
difference is an exact whole number of days, so this is the absolute
ordinal difference, required to be at most 365. -/
def validateDateRange (start stop : Date) : Bool :=
  ((toOrdinal stop : ℤ) - (toOrdinal start : ℤ)).natAbs ≤ 365

/-- `getHoursBetweenDates` (App.tsx:328-344), the `hoursInRange` read.
Returns the displayed number together with the error message, if any: on a
too-large range the source sets the error and returns 0; otherwise it sums
the hours of the entries with `start <= date <= end` (lexicographic string
comparison, i.e. `Date.ble`). -/
def getHoursBetweenDates (entries : List DayEntry) (start stop : Date) :
    ℚ × Option LedgerError :=
  if ¬ (validateDateRange start stop = true) then
    (0, some .rangeTooLarge)
  else
    (((entries.filter fun e =>
        Date.ble start e.date && Date.ble e.date stop).map (·.hours)).sum,
      none)

/-- The calendar click handler (App.tsx:616-654) normalizes the two picked
endpoints before calling `getHoursBetweenDates`:
`[startDate, endDate] = start > end ? [end, start] : [start, end]`. -/
def normalizedRangeTotal (entries : List DayEntry) (first second : Date) :
    ℚ × Option LedgerError :=
  if Date.blt second first then
    getHoursBetweenDates entries second first
  else
    getHoursBetweenDates entries first second

/-- `getCurrentMonthHours` (App.tsx:507-513), the `hoursInMonth` read: a
reduce that adds the hours of exactly those entries whose month number
(`new Date(entry.date).getMonth()`) equals the displayed month's number —
the year is not consulted. -/
def getCurrentMonthHours (entries : List DayEntry) (currentMonth : Date) :
    ℚ :=
  ((entries.filter fun e => e.date.month = currentMonth.month).map
    (·.hours)).sum

/-- Modelled from the spec: the sum over records whose `date` falls in the
given `(year, month)` — the reading of `hoursInMonth` asserted by the
specification, used to compare against `getCurrentMonthHours`. -/
def specHoursInMonth (year month : ℕ) (entries : List DayEntry) : ℚ :=
  ((entries.filter fun e =>
      e.date.year = year ∧ e.date.month = month).map (·.hours)).sum

/-- The `useState` initializer of `entries` (App.tsx:16-19):
`const saved = localStorage.getItem(...); return saved ? JSON.parse(saved) : []`.
`jsonParseEntries` stands for the external `JSON.parse` (plus the implicit
cast to `DayEntry[]`): `Except.error` is a thrown `SyntaxError`.  The
initializer has no `try`/`catch`, so a throw propagates out of the model
exactly as it would crash the component. -/
def appInitEntries (jsonParseEntries : String → Except String (List DayEntry))
    (saved : Option String) : Except String (List DayEntry) :=
  match saved with
  | none => Except.ok []
  | some s => jsonParseEntries s

/-- The ledger invariants I1-I4 of the specification, relative to the
current date `today`: hours in `[0, 24]` and a multiple of `1/2` (i.e.
`2 * hours` is an integer), dates unique, dates within the 2025 window and
not after `today`. -/
def LedgerInv (today : Date) (entries : List DayEntry) : Prop :=
  (∀ e ∈ entries,
      0 ≤ e.hours ∧ e.hours ≤ 24 ∧ (2 * e.hours).den = 1 ∧
      Date.ble startDate e.date = true ∧ Date.ble e.date endDate = true ∧
      Date.ble e.date today = true) ∧
  (entries.map (·.date)).Nodup

/-- Iterated `quickAdd today 0.5` starting from the empty ledger — the
spec's "repeated quick-add from a 0-hour baseline" scenario. -/
def addHalfLoop (today : Date) : ℕ → List DayEntry
  | 0 => []
  | n + 1 => (quickAdd (addHalfLoop today n) today (1/2)).1

/-! ### Order facts about `Date` -/

theorem Date.blt_iff (a b : Date) :
    Date.blt a b = true ↔
      a.year < b.year ∨ (a.year = b.year ∧
        (a.month < b.month ∨ (a.month = b.month ∧ a.day < b.day))) := by
  simp [Date.blt]

theorem Date.ble_iff (a b : Date) :
    Date.ble a b = true ↔
      a.year < b.year ∨ (a.year = b.year ∧
        (a.month < b.month ∨ (a.month = b.month ∧ a.day ≤ b.day))) := by
  simp [Date.ble]

theorem Date.ble_refl (a : Date) : Date.ble a a = true := by
  rw [Date.ble_iff]
  omega

theorem Date.blt_eq_false_of_ble {a b : Date} (h : Date.ble a b = true) :
    Date.blt b a = false := by
  rw [← Bool.not_eq_true, Date.blt_iff]
  rw [Date.ble_iff] at h
  omega

theorem Date.ble_of_blt {a b : Date} (h : Date.blt a b = true) :
    Date.ble a b = true := by
  rw [Date.blt_iff] at h
  rw [Date.ble_iff]
  omega

theorem Date.blt_trichotomy (a b : Date) :
    a = b ∨ (Date.blt a b = true ∧ Date.blt b a = false) ∨
      (Date.blt b a = true ∧ Date.blt a b = false) := by
  by_cases hab : Date.blt a b = true
  · refine .inr (.inl ⟨hab, ?_⟩)
    rw [← Bool.not_eq_true, Date.blt_iff]
    rw [Date.blt_iff] at hab
    omega
  · by_cases hba : Date.blt b a = true
    · exact .inr (.inr ⟨hba, by rwa [← Bool.not_eq_true]⟩)
    · left
      rw [Date.blt_iff] at hab hba
      cases a
      cases b
      simp only [Date.mk.injEq]
      simp only [Date.mk.injEq] at hab hba  -- no-op on hyps, keep fields
      omega

/-! ### Facts about rounding and clamping -/

theorem jsRound_intCast (n : ℤ) : jsRound (n : ℚ) = n := by
  rw [jsRound, add_comm, Int.floor_add_int]
  norm_num

/-- Pulling the division by two out of the clamp. -/
theorem validateAndClampHours_eq_int (h : ℚ) :
    validateAndClampHours h =
      ((min (max 0 (jsRound (h * 2))) 48 : ℤ) : ℚ) / 2 := by
  rw [validateAndClampHours]
  push_cast
  rcases le_total ((jsRound (h * 2) : ℚ)) 0 with hn | hn
  · rw [max_eq_left (by linarith), max_eq_left hn,
      min_eq_left (by norm_num : (0:ℚ) ≤ 24), min_eq_left (by linarith)]
    norm_num
  · rw [max_eq_right (by linarith), max_eq_right hn]
    rcases le_total ((jsRound (h * 2) : ℚ)) 48 with h2 | h2
    · rw [min_eq_left (by linarith), min_eq_left h2]
    · rw [min_eq_right (by linarith), min_eq_right h2]
      norm_num

theorem validateAndClampHours_nonneg (h : ℚ) :
    0 ≤ validateAndClampHours h :=
  le_min (le_max_left 0 _) (by norm_num)

theorem validateAndClampHours_le (h : ℚ) : validateAndClampHours h ≤ 24 :=
  min_le_right _ _

/-- The clamped value is a multiple of one half: twice it is an integer. -/
theorem validateAndClampHours_den (h : ℚ) :
    (2 * validateAndClampHours h).den = 1 := by
  rw [validateAndClampHours_eq_int]
  have : (2 : ℚ) * (((min (max 0 (jsRound (h * 2))) 48 : ℤ) : ℚ) / 2) =
      ((min (max 0 (jsRound (h * 2))) 48 : ℤ) : ℚ) := by ring
  rw [this, Rat.den_intCast]

/-- Inside `[0, 24]` the clamp is the identity: only the rounding acts. -/
theorem validateAndClampHours_of_between {h : ℚ} (h0 : 0 ≤ h)
    (h24 : h ≤ 24) :
    validateAndClampHours h = (jsRound (h * 2) : ℚ) / 2 := by
  have hlo : (0 : ℤ) ≤ jsRound (h * 2) := by
    rw [jsRound]
    exact Int.le_floor.mpr (by push_cast; linarith)
  have hhi : jsRound (h * 2) ≤ 48 := by
    have h1 : jsRound (h * 2) ≤ ⌊(97 / 2 : ℚ)⌋ :=
      Int.floor_mono (by linarith)
    have h2 : ⌊(97 / 2 : ℚ)⌋ = 48 := by norm_num
    omega
  have hlo' : (0 : ℚ) ≤ (jsRound (h * 2) : ℚ) / 2 := by
    have : (0 : ℚ) ≤ (jsRound (h * 2) : ℚ) := by exact_mod_cast hlo
    linarith
  have hhi' : (jsRound (h * 2) : ℚ) / 2 ≤ 24 := by
    have : (jsRound (h * 2) : ℚ) ≤ 48 := by exact_mod_cast hhi
    linarith
  rw [validateAndClampHours, max_eq_right hlo', min_eq_left hhi']

/-- An input of at least a quarter hour survives rounding: the clamped
value is at least one half. -/
theorem validateAndClampHours_ge_half {h : ℚ} (hq : 1 / 4 ≤ h) :
    1 / 2 ≤ validateAndClampHours h := by
  have h1 : (1 : ℤ) ≤ jsRound (h * 2) := by
    rw [jsRound]
    exact Int.le_floor.mpr (by push_cast; linarith)
  have h1' : (1 : ℚ) / 2 ≤ (jsRound (h * 2) : ℚ) / 2 := by
    have : (1 : ℚ) ≤ (jsRound (h * 2) : ℚ) := by exact_mod_cast h1
    linarith
  exact le_min (le_trans h1' (le_max_right _ _)) (by norm_num)

/-- A rational with denominator 1 minus another is again denominator 1. -/
theorem den_one_sub {x y : ℚ} (hx : x.den = 1) (hy : y.den = 1) :
    (x - y).den = 1 := by
  rw [Rat.den_eq_one_iff] at hx hy
  have : x - y = ((x.num - y.num : ℤ) : ℚ) := by push_cast; rw [hx, hy]
  rw [this, Rat.den_intCast]

/-! ### Facts about `upsert`, `find?`, `filter`, `map` -/

theorem find?_upsert (l : List DayEntry) (d : Date) (v : ℚ) :
    (upsert l d v).find? (fun e => e.date = d) = some ⟨d, v⟩ := by
  induction l with
  | nil => simp [upsert]
  | cons e tl ih =>
      by_cases h : e.date = d
      · simp [upsert, h]
      · simp only [upsert, if_neg h]
        rw [List.find?_cons_of_neg _ (by simp [h])]
        exact ih

theorem getHoursForDate_upsert (l : List DayEntry) (d : Date) (v : ℚ) :
    getHoursForDate (upsert l d v) d = v := by
  rw [getHoursForDate, find?_upsert]
  rfl

theorem mem_map_date_upsert {x : Date} {l : List DayEntry} {d : Date}
    {v : ℚ} (hx : x ∈ (upsert l d v).map (·.date)) :
    x ∈ l.map (·.date) ∨ x = d := by
  induction l with
  | nil => simpa [upsert] using hx
  | cons e tl ih =>
      by_cases h : e.date = d
      · simp only [upsert, if_pos h, List.map_cons, List.mem_cons] at hx
        rcases hx with hx | hx
        · exact .inr hx
        · exact .inl (by simp [hx])
      · simp only [upsert, if_neg h, List.map_cons, List.mem_cons] at hx
        rcases hx with hx | hx
        · exact .inl (by simp [hx])
        · rcases ih hx with h' | h'
          · exact .inl (by
              simp only [List.map_cons, List.mem_cons]
              exact .inr h')
          · exact .inr h'

theorem find?_filter_ne (l : List DayEntry) (d : Date) :
    (l.filter fun e => ¬ (e.date = d)).find? (fun e => e.date = d) =
      none := by
  rw [List.find?_eq_none]
  intro e he
  have := (List.mem_filter.mp he).2
  simp only [decide_not, Bool.not_eq_true', decide_eq_false_iff_not] at this
  simpa using this

theorem getHoursForDate_filter_ne (l : List DayEntry) (d : Date) :
    getHoursForDate (l.filter fun e => ¬ (e.date = d)) d = 0 := by
  rw [getHoursForDate, find?_filter_ne]
  rfl

/-- `find?` on a date commutes with a map that keeps every date. -/
theorem find?_map_of_keep_date (g : DayEntry → DayEntry)
    (hg : ∀ e, (g e).date = e.date) (l : List DayEntry) (d : Date) :
    (l.map g).find? (fun e => e.date = d) =
      (l.find? (fun e => e.date = d)).map g := by
  induction l with
  | nil => simp
  | cons e tl ih =>
      by_cases h : e.date = d
      · rw [List.map_cons, List.find?_cons_of_pos _ (by simp [hg, h]),
          List.find?_cons_of_pos _ (by simp [h])]
        rfl
      · rw [List.map_cons, List.find?_cons_of_neg _ (by simp [hg, h]),
          List.find?_cons_of_neg _ (by simp [h])]
        exact ih

/-! ### Invariant preservation helpers -/

theorem LedgerInv_upsert {today : Date} {l : List DayEntry} {d : Date}
    {v : ℚ} (hInv : LedgerInv today l) (h0 : 0 ≤ v) (h24 : v ≤ 24)
    (hden : (2 * v).den = 1) (hs : Date.ble startDate d = true)
    (he : Date.ble d endDate = true) (ht : Date.ble d today = true) :
    LedgerInv today (upsert l d v) := by
  induction l with
  | nil =>
      refine ⟨?_, by simp [upsert]⟩
      intro e hmem
      simp only [upsert, List.mem_singleton] at hmem
      subst hmem
      exact ⟨h0, h24, hden, hs, he, ht⟩
  | cons e tl ih =>
      obtain ⟨hall, hnd⟩ := hInv
      rw [List.map_cons, List.nodup_cons] at hnd
      by_cases h : e.date = d
      · refine ⟨?_, ?_⟩
        · intro x hx
          simp only [upsert, if_pos h, List.mem_cons] at hx
          rcases hx with hx | hx
          · subst hx
            exact ⟨h0, h24, hden, hs, he, ht⟩
          · exact hall x (by simp [hx])
        · simp only [upsert, if_pos h, List.map_cons, List.nodup_cons]
          exact ⟨h ▸ hnd.1, hnd.2⟩
      · have ihr := ih ⟨fun x hx => hall x (by simp [hx]), hnd.2⟩
        refine ⟨?_, ?_⟩
        · intro x hx
          simp only [upsert, if_neg h, List.mem_cons] at hx
          rcases hx with hx | hx
          · exact hx ▸ hall e (by simp)
          · exact ihr.1 x hx
        · simp only [upsert, if_neg h, List.map_cons, List.nodup_cons]
          refine ⟨?_, ihr.2⟩
          intro hc
          rcases mem_map_date_upsert hc with h' | h'
          · exact hnd.1 h'
          · exact h h'

theorem LedgerInv_filter {today : Date} {l : List DayEntry}
    (p : DayEntry → Bool) (hInv : LedgerInv today l) :
    LedgerInv today (l.filter p) := by
  refine ⟨fun e he => hInv.1 e (List.mem_of_mem_filter he), ?_⟩
  exact hInv.2.sublist ((List.filter_sublist l).map (·.date))

/-! ### Claim C1 -/

/-- Claim C1, counterexample: the claim says every `0 ≤ h ≤ 24` on an
in-window date succeeds, but `h = 1/5` (0.2 hours) rounds to 0 while being
nonzero, so `handleSubmit` rejects it with the out-of-range error and
leaves the ledger unchanged. -/
theorem C1_counterexample :
    isValidDate ⟨2025, 6, 15⟩ ⟨2025, 3, 1⟩ = true ∧
    (0 : ℚ) ≤ 1 / 5 ∧ (1 / 5 : ℚ) ≤ 24 ∧
    handleSubmit [] ⟨2025, 6, 15⟩ ⟨2025, 3, 1⟩ (1 / 5) =
      ([], some LedgerError.outOfRange) := by
  refine ⟨by decide, by norm_num, by norm_num, ?_⟩
  have hv : validateAndClampHours (1 / 5) = 0 := by
    rw [validateAndClampHours_of_between (by norm_num) (by norm_num)]
    norm_num [jsRound]
  simp only [handleSubmit, hv]
  norm_num

/-- Claim C1 (amended): for every date inside the 2025 window and not
after today, and every hours value `h` with `0 ≤ h ≤ 24` that is either
zero or at least a quarter hour (so that rounding does not collapse a
nonzero request to zero), `setHours` succeeds and an immediate read of
that date returns `h` rounded to the nearest half (ties up): requests in
`(0, 1/4)` are instead rejected, as C1_counterexample shows. -/
theorem C1_amended_setHours_round (l : List DayEntry) (today d : Date)
    (h : ℚ) (hd : isValidDate today d = true) (h0 : 0 ≤ h) (h24 : h ≤ 24)
    (hq : h = 0 ∨ 1 / 4 ≤ h) :
    (handleSubmit l today d h).2 = none ∧
    getHoursForDate (handleSubmit l today d h).1 d =
      (jsRound (h * 2) : ℚ) / 2 := by
  have hcond : ¬ (validateAndClampHours h = 0 ∧ h ≠ 0) := by
    rcases hq with rfl | hq
    · rintro ⟨-, hne⟩
      exact hne rfl
    · rintro ⟨hz, -⟩
      have := validateAndClampHours_ge_half hq
      rw [hz] at this
      norm_num at this
  have hres : handleSubmit l today d h =
      (upsert l d (validateAndClampHours h), none) := by
    simp only [handleSubmit]
    rw [if_neg hcond, if_neg (not_not_intro hd)]
  rw [hres]
  refine ⟨rfl, ?_⟩
  rw [getHoursForDate_upsert, validateAndClampHours_of_between h0 h24]

/-- Claim C1 witness: a concrete successful run, `h = 2` hours on
2025-03-01 with today 2025-06-15. -/
theorem C1_witness :
    (handleSubmit [] ⟨2025, 6, 15⟩ ⟨2025, 3, 1⟩ 2).2 = none ∧
    getHoursForDate (handleSubmit [] ⟨2025, 6, 15⟩ ⟨2025, 3, 1⟩ 2).1
      ⟨2025, 3, 1⟩ = (jsRound (2 * 2) : ℚ) / 2 :=
  C1_amended_setHours_round [] ⟨2025, 6, 15⟩ ⟨2025, 3, 1⟩ 2 (by decide)
    (by norm_num) (by norm_num) (.inr (by norm_num))

/-! ### Claim C3 -/

/-- Claim C3: `deleteHours(date, amount)` — when no record exists the
ledger is unchanged (a no-op, not an error); when the amount is omitted or
at least the current hours the record is removed entirely; when
`0 < amount < current` the record is retained with its hours reduced by
exactly `amount`, however small the remainder. -/
theorem C3_deleteHours_semantics (l : List DayEntry) (d : Date)
    (amt : Option ℚ) :
    (l.find? (fun e => e.date = d) = none → deleteEntry l d amt = l) ∧
    (∀ ex, l.find? (fun e => e.date = d) = some ex →
      (amt = none ∨ ∃ a, amt = some a ∧ ex.hours ≤ a) →
      (deleteEntry l d amt).find? (fun e => e.date = d) = none) ∧
    (∀ ex a, l.find? (fun e => e.date = d) = some ex → amt = some a →
      0 < a → a < ex.hours →
      (deleteEntry l d amt).find? (fun e => e.date = d) =
        some ⟨d, ex.hours - a⟩) := by
  refine ⟨?_, ?_, ?_⟩
  · intro hfind
    rw [deleteEntry, hfind]
  · intro ex hfind hfull
    rcases hfull with rfl | ⟨a, rfl, hge⟩
    · simp only [deleteEntry, hfind]
      exact find?_filter_ne l d
    · simp only [deleteEntry, hfind]
      rw [if_neg (by rintro ⟨-, hlt⟩; exact absurd hge (not_le.mpr hlt))]
      exact find?_filter_ne l d
  · intro ex a hfind hamt h0 hlt
    subst hamt
    simp only [deleteEntry, hfind]
    rw [if_pos ⟨ne_of_gt h0, hlt⟩]
    rw [find?_map_of_keep_date _ (fun e => by split <;> rfl), hfind]
    have hexd : ex.date = d := by simpa using List.find?_some hfind
    simp [hexd]

/-- Claim C3 witness: with a 5-hour record, a partial delete of 2 leaves
a retained record of 3 hours, an over-delete of 10 removes the record, and
deleting an absent date is a no-op. -/
theorem C3_witness :
    (deleteEntry [⟨⟨2025, 3, 1⟩, 5⟩] ⟨2025, 3, 1⟩ (some 2)).find?
        (fun e => e.date = ⟨2025, 3, 1⟩) = some ⟨⟨2025, 3, 1⟩, 5 - 2⟩ ∧
    (deleteEntry [⟨⟨2025, 3, 1⟩, 5⟩] ⟨2025, 3, 1⟩ (some 10)).find?
        (fun e => e.date = ⟨2025, 3, 1⟩) = none ∧
    deleteEntry [⟨⟨2025, 3, 1⟩, 5⟩] ⟨2025, 4, 1⟩ (some 2) =
      [⟨⟨2025, 3, 1⟩, 5⟩] := by
  refine ⟨?_, ?_, ?_⟩
  · exact (C3_deleteHours_semantics [⟨⟨2025, 3, 1⟩, 5⟩] ⟨2025, 3, 1⟩
      (some 2)).2.2 ⟨⟨2025, 3, 1⟩, 5⟩ 2 (by simp) rfl (by norm_num)
      (by norm_num)
  · exact (C3_deleteHours_semantics [⟨⟨2025, 3, 1⟩, 5⟩] ⟨2025, 3, 1⟩
      (some 10)).2.1 ⟨⟨2025, 3, 1⟩, 5⟩ (by simp)
      (.inr ⟨10, rfl, by norm_num⟩)
  · exact (C3_deleteHours_semantics [⟨⟨2025, 3, 1⟩, 5⟩] ⟨2025, 4, 1⟩
      (some 2)).1 (by simp)

/-! ### Claim C10 -/

/-- Claim C10: an explicit amount of exactly 0 is falsy in the JS
truthiness test, so `deleteHours(date, 0)` takes the full-deletion branch,
identical to an omitted amount, and a subsequent read of the date
returns 0. -/
theorem C10_delete_zero_full (l : List DayEntry) (d : Date) :
    deleteEntry l d (some 0) = deleteEntry l d none ∧
    getHoursForDate (deleteEntry l d (some 0)) d = 0 := by
  have heq : deleteEntry l d (some 0) = deleteEntry l d none := by
    cases hfind : l.find? fun e => e.date = d with
    | none => simp only [deleteEntry, hfind]
    | some ex =>
        simp only [deleteEntry, hfind]
        rw [if_neg]
        rintro ⟨hne, -⟩
        exact hne rfl
  refine ⟨heq, ?_⟩
  rw [heq]
  cases hfind : l.find? fun e => e.date = d with
  | none =>
      simp only [deleteEntry, hfind]
      rw [getHoursForDate, hfind]
      rfl
  | some ex =>
      simp only [deleteEntry, hfind]
      exact getHoursForDate_filter_ne l d

/-! ### Claim C2 -/

/-- Claim C2, counterexample: `deleteEntry` does not validate the explicit
amount, so from an invariant-satisfying ledger a partial delete of 0.3
hours yields a record of 4.7 hours — not a multiple of 0.5, violating I1 —
with no failure reported. -/
theorem C2_counterexample :
    LedgerInv ⟨2025, 6, 15⟩ [⟨⟨2025, 3, 1⟩, 5⟩] ∧
    deleteEntry [⟨⟨2025, 3, 1⟩, 5⟩] ⟨2025, 3, 1⟩ (some (3 / 10)) =
      [⟨⟨2025, 3, 1⟩, 47 / 10⟩] ∧
    ¬ LedgerInv ⟨2025, 6, 15⟩ [⟨⟨2025, 3, 1⟩, 47 / 10⟩] := by
  refine ⟨⟨?_, by simp⟩, ?_, ?_⟩
  · intro e he
    rw [List.mem_singleton] at he
    subst he
    exact ⟨by norm_num, by norm_num, by norm_num, by decide, by decide,
      by decide⟩
  · norm_num [deleteEntry, List.find?]
  · rintro ⟨hall, -⟩
    have := (hall ⟨⟨2025, 3, 1⟩, 47 / 10⟩ (by simp)).2.2.1
    norm_num at this

/-- Claim C2 (amended): with today inside the 2025 window, `setHours`,
quick-add, full deletion, and partial deletion with a nonnegative
half-step amount each either produce a ledger satisfying I1-I4 or leave
the ledger unchanged while reporting the failure; an arbitrary explicit
delete amount can break I1, as C2_counterexample shows. -/
theorem C2_amended_invariants (today : Date) (l : List DayEntry)
    (hts : Date.ble startDate today = true)
    (hte : Date.ble today endDate = true) (hInv : LedgerInv today l) :
    (∀ d h, ((handleSubmit l today d h).2 = none →
        LedgerInv today (handleSubmit l today d h).1) ∧
      ((handleSubmit l today d h).2 ≠ none →
        (handleSubmit l today d h).1 = l)) ∧
    (∀ δ, ((quickAdd l today δ).2 = none →
        LedgerInv today (quickAdd l today δ).1) ∧
      ((quickAdd l today δ).2 ≠ none → (quickAdd l today δ).1 = l)) ∧
    (∀ d, LedgerInv today (deleteEntry l d none)) ∧
    (∀ d a, 0 ≤ a → (2 * a).den = 1 →
      LedgerInv today (deleteEntry l d (some a))) := by
  refine ⟨?_, ?_, ?_, ?_⟩
  · intro d h
    simp only [handleSubmit]
    split_ifs with h1 h2
    · exact ⟨fun hc => absurd hc (by simp), fun _ => rfl⟩
    · refine ⟨fun _ => ?_, fun hc => absurd rfl hc⟩
      rw [isValidDate, Bool.and_eq_true, Bool.and_eq_true] at h2
      exact LedgerInv_upsert hInv (validateAndClampHours_nonneg h)
        (validateAndClampHours_le h) (validateAndClampHours_den h)
        h2.1.1 h2.1.2 h2.2
    · exact ⟨fun hc => absurd hc (by simp), fun _ => rfl⟩
  · intro δ
    simp only [quickAdd]
    split_ifs with h1 h2 h3 h4
    · exact ⟨fun hc => absurd hc (by simp), fun _ => rfl⟩
    · exact ⟨fun hc => absurd hc (by simp), fun _ => rfl⟩
    · exact ⟨fun hc => absurd hc (by simp), fun _ => rfl⟩
    · exact ⟨fun _ => hInv, fun _ => rfl⟩
    · refine ⟨fun _ => ?_, fun hc => absurd rfl hc⟩
      exact LedgerInv_upsert hInv (validateAndClampHours_nonneg _)
        (validateAndClampHours_le _) (validateAndClampHours_den _)
        hts hte (Date.ble_refl today)
  · intro d
    cases hfind : l.find? fun e => e.date = d with
    | none => simpa only [deleteEntry, hfind] using hInv
    | some ex =>
        simp only [deleteEntry, hfind]
        exact LedgerInv_filter _ hInv
  · intro d a ha0 haden
    cases hfind : l.find? fun e => e.date = d with
    | none => simpa only [deleteEntry, hfind] using hInv
    | some ex =>
        simp only [deleteEntry, hfind]
        split_ifs with hc
        · obtain ⟨-, hlt⟩ := hc
          have hexmem : ex ∈ l := List.mem_of_find?_eq_some hfind
          have hexd : ex.date = d := by simpa using List.find?_some hfind
          constructor
          · intro e he
            rw [List.mem_map] at he
            obtain ⟨e0, he0, rfl⟩ := he
            by_cases hd : e0.date = d
            · have he0ex : e0 = ex :=
                List.inj_on_of_nodup_map hInv.2 he0 hexmem
                  (by rw [hd, hexd])
              obtain ⟨h0, h24, hden, hs, he', ht⟩ := hInv.1 e0 he0
              rw [if_pos hd]
              refine ⟨?_, ?_, ?_, hs, he', ht⟩
              · have : a < e0.hours := he0ex ▸ hlt
                dsimp only
                linarith
              · dsimp only
                linarith
              · have : 2 * (e0.hours - a) = 2 * e0.hours - 2 * a := by
                  ring
                dsimp only
                rw [this]
                exact den_one_sub hden haden
            · rw [if_neg hd]
              exact hInv.1 e0 he0
          · have hdates : (l.map fun e =>
                if e.date = d then (⟨e.date, e.hours - a⟩ : DayEntry)
                else e).map (·.date) = l.map (·.date) := by
              rw [List.map_map]
              exact List.map_congr_left fun e _ => by
                dsimp only [Function.comp]
                split <;> rfl
            rw [hdates]
            exact hInv.2
        · exact LedgerInv_filter _ hInv

/-- Claim C2 witness: a concrete application — starting from the valid
one-record ledger, a full delete of its date yields a ledger that still
satisfies the invariants. -/
theorem C2_witness :
    LedgerInv ⟨2025, 6, 15⟩
      (deleteEntry [⟨⟨2025, 3, 1⟩, 5⟩] ⟨2025, 3, 1⟩ none) :=
  (C2_amended_invariants ⟨2025, 6, 15⟩ [⟨⟨2025, 3, 1⟩, 5⟩] (by decide)
    (by decide)
    ⟨fun e he => by
      rw [List.mem_singleton] at he
      subst he
      exact ⟨by norm_num, by norm_num, by norm_num, by decide, by decide,
        by decide⟩,
      by simp⟩).2.2.1 ⟨2025, 3, 1⟩

/-! ### Claim C4 -/

theorem validateAndClampHours_add_half (k : ℕ) (hk : k + 1 ≤ 48) :
    validateAndClampHours ((k : ℚ) / 2 + 1 / 2) = ((k : ℚ) + 1) / 2 := by
  have hk47 : (k : ℚ) ≤ 47 := by exact_mod_cast (by omega : k ≤ 47)
  rw [validateAndClampHours_of_between (by positivity) (by linarith)]
  have harg : ((k : ℚ) / 2 + 1 / 2) * 2 = ((k + 1 : ℤ) : ℚ) := by
    push_cast
    ring
  rw [harg, jsRound_intCast]
  push_cast
  ring

/-- Closed form of the repeated half-hour quick-add: after `k ≤ 48` steps
today's record holds `k/2` hours. -/
theorem addHalfLoop_closed (today : Date)
    (hts : Date.ble startDate today = true) :
    ∀ k, k ≤ 48 →
      addHalfLoop today k =
        if k = 0 then [] else [⟨today, (k : ℚ) / 2⟩] := by
  intro k
  induction k with
  | zero => intro _; rfl
  | succ n ih =>
      intro hn
      have hstep := ih (by omega)
      have hblt : Date.blt today startDate = false :=
        Date.blt_eq_false_of_ble hts
      have hcur : getHoursForDate (addHalfLoop today n) today =
          (n : ℚ) / 2 := by
        rw [hstep]
        by_cases h0 : n = 0
        · subst h0
          simp [getHoursForDate]
        · rw [if_neg h0]
          simp [getHoursForDate]
      have hvch := validateAndClampHours_add_half n (by omega)
      have hne : ((n : ℚ) + 1) / 2 ≠ (n : ℚ) / 2 := by
        intro hc
        linarith
      show (quickAdd (addHalfLoop today n) today (1 / 2)).1 = _
      simp only [quickAdd, hblt, Bool.false_eq_true, if_false, hcur, hvch,
        if_neg hne]
      rw [hstep]
      by_cases h0 : n = 0
      · subst h0
        rw [if_pos rfl]
        rw [if_neg (by omega : ¬ (0 + 1 = 0))]
        simp only [upsert]
        norm_num
      · rw [if_neg h0, if_neg (by omega : ¬ (n + 1 = 0))]
        simp only [upsert, if_pos rfl]
        push_cast
        norm_num

/-- Claim C4: `addHours(today, delta)` with `delta ≠ 0` (and today not
before the 2025 start, the only guard the code has) computes the clamped
candidate from today's current hours; if the candidate equals the current
value it fails with CannotExceedMaximum for positive delta and
CannotGoNegative for negative delta, leaving the ledger unchanged, and
otherwise it writes the candidate to today's record; in particular 48
half-hour quick-adds from an empty ledger reach exactly 24 hours and the
49th fails with CannotExceedMaximum. -/
theorem C4_quickAdd_semantics :
    (∀ (l : List DayEntry) (today : Date) (δ : ℚ),
      Date.ble startDate today = true → δ ≠ 0 →
      (validateAndClampHours (getHoursForDate l today + δ) =
          getHoursForDate l today →
        quickAdd l today δ = (l,
          some (if 0 < δ then LedgerError.cannotExceedMax
            else LedgerError.cannotGoNegative))) ∧
      (validateAndClampHours (getHoursForDate l today + δ) ≠
          getHoursForDate l today →
        quickAdd l today δ = (upsert l today
          (validateAndClampHours (getHoursForDate l today + δ)), none))) ∧
    getHoursForDate (addHalfLoop ⟨2025, 6, 15⟩ 48) ⟨2025, 6, 15⟩ = 24 ∧
    quickAdd (addHalfLoop ⟨2025, 6, 15⟩ 48) ⟨2025, 6, 15⟩ (1 / 2) =
      (addHalfLoop ⟨2025, 6, 15⟩ 48, some .cannotExceedMax) := by
  have hloop := addHalfLoop_closed ⟨2025, 6, 15⟩ (by decide) 48
    (by norm_num)
  refine ⟨fun l today δ hts hδ => ?_, ?_, ?_⟩
  · have hblt : Date.blt today startDate = false :=
      Date.blt_eq_false_of_ble hts
    constructor
    · intro heq
      simp only [quickAdd, hblt, Bool.false_eq_true, if_false, if_pos heq]
      rcases lt_trichotomy δ 0 with hneg | rfl | hpos
      · rw [if_neg (by linarith), if_neg (not_lt.mpr (le_of_lt hneg)),
          if_pos hneg]
      · exact absurd rfl hδ
      · rw [if_pos hpos, if_pos hpos]
    · intro hne
      simp only [quickAdd, hblt, Bool.false_eq_true, if_false, if_neg hne]
  · rw [hloop, if_neg (by omega : ¬ (48 = 0))]
    simp [getHoursForDate]
    norm_num
  · rw [hloop, if_neg (by omega : ¬ (48 = 0)),
      show (((48 : ℕ) : ℚ) / 2) = 24 from by push_cast; norm_num]
    have hvch24 : validateAndClampHours ((24 : ℚ) + 1 / 2) = 24 := by
      rw [validateAndClampHours, jsRound]
      norm_num
    have hcur : getHoursForDate [(⟨⟨2025, 6, 15⟩, (24 : ℚ)⟩ : DayEntry)]
        ⟨2025, 6, 15⟩ = 24 := by
      simp [getHoursForDate]
    simp only [quickAdd, show Date.blt ⟨2025, 6, 15⟩ startDate = false
      from by decide, Bool.false_eq_true, if_false, hcur, hvch24, if_pos rfl]
    rw [if_pos trivial, if_pos (by norm_num : (0 : ℚ) < 1 / 2)]

/-- Claim C4 witness: a concrete quick-add of one hour on an empty ledger
succeeds and writes the clamped candidate. -/
theorem C4_witness :
    quickAdd [] ⟨2025, 6, 15⟩ 1 = (upsert [] ⟨2025, 6, 15⟩
      (validateAndClampHours (getHoursForDate [] ⟨2025, 6, 15⟩ + 1)),
      none) :=
  (C4_quickAdd_semantics.1 [] ⟨2025, 6, 15⟩ 1 (by decide) one_ne_zero).2
    (by norm_num [getHoursForDate, validateAndClampHours, jsRound])

/-! ### Claim C5 -/

/-- Claim C5, counterexample: `getHoursBetweenDates` itself is not
symmetric — with the endpoints reversed the filter `start <= date <= end`
matches nothing, so a one-record range that sums to 5 in order sums to 0
when swapped (the range-size validation passes both ways since it uses an
absolute difference). -/
theorem C5_counterexample :
    getHoursBetweenDates [⟨⟨2025, 3, 1⟩, 5⟩] ⟨2025, 3, 1⟩ ⟨2025, 3, 2⟩ ≠
      getHoursBetweenDates [⟨⟨2025, 3, 1⟩, 5⟩] ⟨2025, 3, 2⟩
        ⟨2025, 3, 1⟩ := by
  have h1 : getHoursBetweenDates [⟨⟨2025, 3, 1⟩, 5⟩] ⟨2025, 3, 1⟩
      ⟨2025, 3, 2⟩ = (5, none) := by
    rw [getHoursBetweenDates, if_neg (not_not_intro (by decide))]
    have hfil : List.filter
        (fun e => Date.ble ⟨2025, 3, 1⟩ e.date &&
          Date.ble e.date ⟨2025, 3, 2⟩)
        [(⟨⟨2025, 3, 1⟩, 5⟩ : DayEntry)] =
        [(⟨⟨2025, 3, 1⟩, 5⟩ : DayEntry)] := by
      rfl
    rw [hfil]
    simp
  have h2 : getHoursBetweenDates [⟨⟨2025, 3, 1⟩, 5⟩] ⟨2025, 3, 2⟩
      ⟨2025, 3, 1⟩ = (0, none) := by
    rw [getHoursBetweenDates, if_neg (not_not_intro (by decide))]
    have hfil : List.filter
        (fun e => Date.ble ⟨2025, 3, 2⟩ e.date &&
          Date.ble e.date ⟨2025, 3, 1⟩)
        [(⟨⟨2025, 3, 1⟩, 5⟩ : DayEntry)] = [] := by
      rfl
    rw [hfil]
    simp
  rw [h1, h2]
  intro hc
  have := congrArg Prod.fst hc
  norm_num at this

/-- Claim C5 (amended): the symmetric normalization lives in the caller,
not in `hoursInRange` itself: the calendar click handler swaps the two
picked endpoints before calling `getHoursBetweenDates`, and that composite
is symmetric in the endpoints, as is the range-size validation; the bare
`getHoursBetweenDates` is not, per C5_counterexample. -/
theorem C5_amended_symmetry (l : List DayEntry) (a b : Date) :
    normalizedRangeTotal l a b = normalizedRangeTotal l b a ∧
    validateDateRange a b = validateDateRange b a := by
  constructor
  · rcases Date.blt_trichotomy b a with rfl | ⟨h1, h2⟩ | ⟨h1, h2⟩
    · rfl
    · rw [normalizedRangeTotal, normalizedRangeTotal, if_pos h1,
        if_neg (by rw [h2]; exact Bool.false_ne_true)]
    · rw [normalizedRangeTotal, normalizedRangeTotal, if_pos h1,
        if_neg (by rw [h2]; exact Bool.false_ne_true)]
  · rw [validateDateRange, validateDateRange]
    exact decide_eq_decide.mpr (by omega)

/-! ### Claim C6 -/

theorem daysBeforeMonth_succ (y m : ℕ) (hm : 1 ≤ m) :
    daysBeforeMonth y (m + 1) = daysBeforeMonth y m + daysInMonth y m := by
  rw [daysBeforeMonth, daysBeforeMonth,
    show m + 1 - 1 = (m - 1) + 1 from by omega, List.range_succ]
  rw [List.map_append, List.sum_append]
  simp only [List.map_cons, List.map_nil, List.sum_cons, List.sum_nil,
    add_zero]
  rw [show m - 1 + 1 = m from by omega]

theorem daysBeforeMonth_mono (y : ℕ) {m m' : ℕ} (hm : 1 ≤ m)
    (h : m ≤ m') : daysBeforeMonth y m ≤ daysBeforeMonth y m' := by
  induction m', h using Nat.le_induction with
  | base => exact le_rfl
  | succ n hn ih =>
      rw [daysBeforeMonth_succ y n (by omega)]
      omega

theorem daysBeforeMonth_thirteen (y : ℕ) :
    daysBeforeMonth y 13 = 365 + (if isLeap y then 1 else 0) := by
  have hr : List.range (13 - 1) = [0, 1, 2, 3, 4, 5, 6, 7, 8, 9, 10, 11] :=
    by rfl
  rw [daysBeforeMonth, hr]
  cases hL : isLeap y <;> norm_num [daysInMonth, hL]

theorem toOrdinal_le_next_year {d : Date} (h1 : 1 ≤ d.month)
    (h2 : d.month ≤ 12) (h3 : d.day ≤ daysInMonth d.year d.month) :
    toOrdinal d ≤ daysBeforeYear d.year + 365 +
      (if isLeap d.year then 1 else 0) := by
  rw [toOrdinal]
  have hstep := daysBeforeMonth_succ d.year d.month h1
  have hmono := daysBeforeMonth_mono d.year
    (by omega : 1 ≤ d.month + 1) (by omega : d.month + 1 ≤ 13)
  have h13 := daysBeforeMonth_thirteen d.year
  omega

set_option maxHeartbeats 1000000 in
theorem daysBeforeYear_succ (y : ℕ) (hy : 1 ≤ y) :
    daysBeforeYear (y + 1) =
      daysBeforeYear y + 365 + (if isLeap y then 1 else 0) := by
  rw [daysBeforeYear, daysBeforeYear]
  split_ifs with hL
  · rw [isLeap] at hL
    simp only [Bool.or_eq_true, Bool.and_eq_true, beq_iff_eq,
      bne_iff_ne, ne_eq] at hL
    omega
  · rw [isLeap] at hL
    simp only [Bool.or_eq_true, Bool.and_eq_true, beq_iff_eq,
      bne_iff_ne, ne_eq, not_or, not_and, not_not] at hL
    omega

theorem daysBeforeYear_mono {y y' : ℕ} (h : y ≤ y') :
    daysBeforeYear y ≤ daysBeforeYear y' := by
  have h4 : (y - 1) / 4 ≤ (y' - 1) / 4 := Nat.div_le_div_right (by omega)
  have h400 : (y - 1) / 400 ≤ (y' - 1) / 400 :=
    Nat.div_le_div_right (by omega)
  have h100 : (y' - 1) / 100 ≤ (y - 1) / 100 + ((y' - 1) - (y - 1)) := by
    omega
  rw [daysBeforeYear, daysBeforeYear]
  omega

/-- The ordinal day number is monotone along the lexicographic date order,
for actual calendar dates. -/
theorem toOrdinal_mono {a b : Date} (ha : isRealDate a)
    (hb : isRealDate b) (h : Date.ble a b = true) :
    toOrdinal a ≤ toOrdinal b := by
  rw [Date.ble_iff] at h
  obtain ⟨hay, ham1, ham2, had1, had2⟩ := ha
  obtain ⟨hby, hbm1, hbm2, hbd1, hbd2⟩ := hb
  rcases h with hy | ⟨hy, hm⟩
  · have h1 := toOrdinal_le_next_year ham1 ham2 had2
    have h2 := daysBeforeYear_succ a.year hay
    have h3 := daysBeforeYear_mono (show a.year + 1 ≤ b.year from by omega)
    have h4 : daysBeforeYear b.year + 1 ≤ toOrdinal b := by
      rw [toOrdinal]
      omega
    omega
  · rcases hm with hmo | ⟨hmo, hd⟩
    · have hstep := daysBeforeMonth_succ a.year a.month ham1
      have hmono := daysBeforeMonth_mono a.year
        (by omega : 1 ≤ a.month + 1) (by omega : a.month + 1 ≤ b.month)
      rw [toOrdinal, toOrdinal, ← hy]
      omega
    · rw [toOrdinal, toOrdinal, ← hy, ← hmo]
      omega

/-- Claim C6, counterexample: the inclusive span of
[2025-01-01, 2026-01-01] is 366 days, which exceeds 365, yet
`getHoursBetweenDates` reports no error (the code compares the endpoint
difference — 365 here — against 365, so it only fails from 367 inclusive
days up). -/
theorem C6_counterexample :
    Date.ble ⟨2025, 1, 1⟩ ⟨2026, 1, 1⟩ = true ∧
    365 < toOrdinal ⟨2026, 1, 1⟩ + 1 - toOrdinal ⟨2025, 1, 1⟩ ∧
    (getHoursBetweenDates [] ⟨2025, 1, 1⟩ ⟨2026, 1, 1⟩).2 = none := by
  refine ⟨by decide, by decide, ?_⟩
  rw [getHoursBetweenDates, if_neg (not_not_intro (by decide))]

/-- Claim C6 (amended): for real dates `start ≤ end`, `hoursInRange`
fails with the range-too-large error exactly when the inclusive span
exceeds 366 days (the code's `diffDays <= 365` test is on the endpoint
difference, one less than the inclusive span), regardless of the ledger;
otherwise it returns the sum over records with
`start ≤ date ≤ end` inclusive. -/
theorem C6_amended_range_error (l : List DayEntry) (s e : Date)
    (hs : isRealDate s) (he : isRealDate e) (hse : Date.ble s e = true) :
    ((getHoursBetweenDates l s e).2 = some LedgerError.rangeTooLarge ↔
      366 < toOrdinal e + 1 - toOrdinal s) ∧
    (toOrdinal e + 1 - toOrdinal s ≤ 366 →
      getHoursBetweenDates l s e =
        (((l.filter fun en => Date.ble s en.date &&
            Date.ble en.date e).map (·.hours)).sum, none)) := by
  have hmono := toOrdinal_mono hs he hse
  have hcast : ((toOrdinal e : ℤ) - (toOrdinal s : ℤ)) =
      ((toOrdinal e - toOrdinal s : ℕ) : ℤ) := by omega
  have hval : validateDateRange s e = true ↔
      toOrdinal e + 1 - toOrdinal s ≤ 366 := by
    rw [validateDateRange]
    simp only [decide_eq_true_eq]
    rw [hcast, Int.natAbs_ofNat]
    omega
  constructor
  · constructor
    · intro hc
      by_contra hgt
      push_neg at hgt
      rw [getHoursBetweenDates, if_neg (not_not_intro (hval.mpr hgt))]
        at hc
      simp at hc
    · intro hgt
      rw [getHoursBetweenDates, if_pos]
      intro hv
      exact absurd (hval.mp hv) (by omega)
  · intro hle
    rw [getHoursBetweenDates, if_neg (not_not_intro (hval.mpr hle))]

/-- Claim C6 witness: a two-month range is not rejected. -/
theorem C6_witness :
    (getHoursBetweenDates [] ⟨2025, 1, 1⟩ ⟨2025, 3, 1⟩).2 ≠
      some LedgerError.rangeTooLarge := by
  intro hc
  exact absurd ((C6_amended_range_error [] ⟨2025, 1, 1⟩ ⟨2025, 3, 1⟩
    (by decide) (by decide) (by decide)).1.mp hc) (by decide)

/-! ### Claim C7 -/

/-- Claim C7, counterexample: `getCurrentMonthHours` compares only the
month number (`getMonth()`), never the year, so a record dated 2024-03-15
contributes 5 hours to the March-2025 total even though the spec's
year-and-month sum over that ledger is 0. -/
theorem C7_counterexample :
    getCurrentMonthHours [⟨⟨2024, 3, 15⟩, 5⟩] ⟨2025, 3, 1⟩ ≠
      specHoursInMonth 2025 3 [⟨⟨2024, 3, 15⟩, 5⟩] := by
  have h1 : getCurrentMonthHours [⟨⟨2024, 3, 15⟩, 5⟩] ⟨2025, 3, 1⟩ = 5 := by
    rw [getCurrentMonthHours,
      show List.filter
        (fun e => e.date.month = (⟨2025, 3, 1⟩ : Date).month)
        [(⟨⟨2024, 3, 15⟩, 5⟩ : DayEntry)] = [⟨⟨2024, 3, 15⟩, 5⟩]
        from rfl]
    simp
  have h2 : specHoursInMonth 2025 3 [⟨⟨2024, 3, 15⟩, 5⟩] = 0 := by
    rw [specHoursInMonth,
      show List.filter
        (fun e => e.date.year = 2025 ∧ e.date.month = 3)
        [(⟨⟨2024, 3, 15⟩, 5⟩ : DayEntry)] = [] from rfl]
    simp
  rw [h1, h2]
  norm_num

/-- Claim C7 (amended): `hoursInMonth` agrees with the sum over records
of the given (year, month) exactly when every record in the ledger lies in
the displayed year — which invariant I3 guarantees inside the app; a
ledger holding another year's records is mis-summed, per
C7_counterexample. -/
theorem C7_amended_month_sum (l : List DayEntry) (cm : Date)
    (hyear : ∀ e ∈ l, e.date.year = cm.year) :
    getCurrentMonthHours l cm = specHoursInMonth cm.year cm.month l := by
  rw [getCurrentMonthHours, specHoursInMonth]
  have hfil : l.filter (fun e => e.date.month = cm.month) =
      l.filter (fun e => e.date.year = cm.year ∧ e.date.month = cm.month)
      := by
    apply List.filter_congr
    intro e he
    simp [hyear e he]
  rw [hfil]

/-- Claim C7 witness: on a one-record ledger inside the displayed year
the two sums agree. -/
theorem C7_witness :
    getCurrentMonthHours [⟨⟨2025, 3, 15⟩, 5⟩] ⟨2025, 3, 1⟩ =
      specHoursInMonth 2025 3 [⟨⟨2025, 3, 15⟩, 5⟩] :=
  C7_amended_month_sum [⟨⟨2025, 3, 15⟩, 5⟩] ⟨2025, 3, 1⟩
    (fun e he => by rw [List.mem_singleton] at he; subst he; rfl)

/-! ### Claim C8 -/

theorem daysInMonth_le (y m : ℕ) : daysInMonth y m ≤ 31 := by
  rw [daysInMonth]
  split_ifs <;> norm_num

theorem getDay_lt (d : Date) : getDay d < 7 :=
  Nat.mod_lt _ (by norm_num)

/-- Claim C8: `monthGrid` always emits exactly 42 cells: first the `w`
trailing days of the previous month (where `w` is the weekday index of
the month's first day) marked out-of-month, then the days `1..daysInMonth`
of the target month in order marked in-month, then leading days of the
next month as padding; in particular for January 2025 the cell at index 3
(the 4th position) is 2025-01-01 marked in-month and the first three cells
are out-of-month. -/
theorem C8_monthGrid (d : Date) :
    ((getDaysInMonth d).length = 42 ∧
      (∀ i, i < getDay ⟨d.year, d.month, 1⟩ →
        (getDaysInMonth d).getD i ⟨⟨0, 0, 0⟩, false⟩ =
          ⟨⟨(prevMonthOf d.year d.month).1, (prevMonthOf d.year d.month).2,
            daysInMonth (prevMonthOf d.year d.month).1
                (prevMonthOf d.year d.month).2 -
              (getDay ⟨d.year, d.month, 1⟩ - 1 - i)⟩, false⟩) ∧
      (∀ i, i < daysInMonth d.year d.month →
        (getDaysInMonth d).getD (getDay ⟨d.year, d.month, 1⟩ + i)
          ⟨⟨0, 0, 0⟩, false⟩ = ⟨⟨d.year, d.month, i + 1⟩, true⟩) ∧
      (∀ i, getDay ⟨d.year, d.month, 1⟩ + daysInMonth d.year d.month ≤ i →
        i < 42 →
        (getDaysInMonth d).getD i ⟨⟨0, 0, 0⟩, false⟩ =
          ⟨⟨(nextMonthOf d.year d.month).1, (nextMonthOf d.year d.month).2,
            i - (getDay ⟨d.year, d.month, 1⟩ +
              daysInMonth d.year d.month) + 1⟩, false⟩)) ∧
    ((getDaysInMonth ⟨2025, 1, 1⟩).getD 3 ⟨⟨0, 0, 0⟩, false⟩ =
        ⟨⟨2025, 1, 1⟩, true⟩ ∧
      ∀ i, i < 3 →
        ((getDaysInMonth ⟨2025, 1, 1⟩).getD i
          ⟨⟨0, 0, 0⟩, false⟩).isCurrentMonth = false) := by
  have hw6 : getDay ⟨d.year, d.month, 1⟩ ≤ 6 := by
    have := getDay_lt ⟨d.year, d.month, 1⟩
    omega
  have hd31 : daysInMonth d.year d.month ≤ 31 := daysInMonth_le _ _
  have hunfold : getDaysInMonth d =
      ((List.range (getDay ⟨d.year, d.month, 1⟩)).reverse.map fun i =>
        (⟨⟨(prevMonthOf d.year d.month).1, (prevMonthOf d.year d.month).2,
          daysInMonth (prevMonthOf d.year d.month).1
            (prevMonthOf d.year d.month).2 - i⟩, false⟩ : CalendarDay))
      ++ ((List.range (daysInMonth d.year d.month)).map fun i =>
        (⟨⟨d.year, d.month, i + 1⟩, true⟩ : CalendarDay))
      ++ ((List.range (42 - (getDay ⟨d.year, d.month, 1⟩ +
          daysInMonth d.year d.month))).map fun i =>
        (⟨⟨(nextMonthOf d.year d.month).1, (nextMonthOf d.year d.month).2,
          i + 1⟩, false⟩ : CalendarDay)) := rfl
  refine ⟨⟨?_, ?_, ?_, ?_⟩, by decide, by decide⟩
  · rw [hunfold]
    simp only [List.length_append, List.length_map, List.length_reverse,
      List.length_range]
    omega
  · intro i hi
    rw [hunfold, List.getD_eq_getElem?_getD]
    rw [List.getElem?_append_left (by
      simp only [List.length_append, List.length_map, List.length_reverse,
        List.length_range]
      omega)]
    rw [List.getElem?_append_left (by
      simp only [List.length_map, List.length_reverse, List.length_range]
      omega)]
    rw [List.getElem?_map]
    rw [List.getElem?_reverse (by simp only [List.length_range]; omega)]
    rw [List.length_range]
    rw [List.getElem?_range (by omega)]
    rfl
  · intro i hi
    rw [hunfold, List.getD_eq_getElem?_getD]
    rw [List.getElem?_append_left (by
      simp only [List.length_append, List.length_map, List.length_reverse,
        List.length_range]
      omega)]
    rw [List.getElem?_append_right (by
      simp only [List.length_map, List.length_reverse, List.length_range]
      omega)]
    simp only [List.length_map, List.length_reverse, List.length_range]
    rw [show getDay ⟨d.year, d.month, 1⟩ + i -
      getDay ⟨d.year, d.month, 1⟩ = i from by omega]
    rw [List.getElem?_map, List.getElem?_range hi]
    rfl
  · intro i hi1 hi2
    rw [hunfold, List.getD_eq_getElem?_getD]
    rw [List.getElem?_append_right (by
      simp only [List.length_append, List.length_map, List.length_reverse,
        List.length_range]
      omega)]
    simp only [List.length_append, List.length_map, List.length_reverse,
      List.length_range]
    rw [List.getElem?_map, List.getElem?_range (by omega)]
    rfl

/-- Claim C8 witness: October 2025 — the grid has 42 cells and the first
in-month cell carries day 1. -/
theorem C8_witness :
    (getDaysInMonth ⟨2025, 10, 11⟩).length = 42 ∧
    (getDaysInMonth ⟨2025, 10, 11⟩).getD (getDay ⟨2025, 10, 1⟩ + 0)
      ⟨⟨0, 0, 0⟩, false⟩ = ⟨⟨2025, 10, 0 + 1⟩, true⟩ :=
  ⟨(C8_monthGrid ⟨2025, 10, 11⟩).1.1,
    (C8_monthGrid ⟨2025, 10, 11⟩).1.2.2.1 0 (by decide)⟩

/-! ### Claim C9 -/

/-- Claim C9 (code-bug evidence): the `useState` initializer calls
`JSON.parse` on the stored string with no `try`/`catch`, so whenever the
parse throws — as it does on any malformed snapshot — the exception
propagates out of initialization instead of yielding an empty ledger; a
missing snapshot does yield the empty ledger. -/
theorem C9_parse_crash_propagates
    (jsonParseEntries : String → Except String (List DayEntry)) :
    (∀ s msg, jsonParseEntries s = Except.error msg →
      appInitEntries jsonParseEntries (some s) = Except.error msg) ∧
    appInitEntries jsonParseEntries none = Except.ok [] :=
  ⟨fun _ _ h => h, rfl⟩

/-- Claim C9 witness: a parse that throws on the stored string
"not json" crashes initialization with that same error. -/
theorem C9_witness :
    appInitEntries (fun _ => Except.error "SyntaxError") (some "not json")
      = Except.error "SyntaxError" :=
  (C9_parse_crash_propagates (fun _ => Except.error "SyntaxError")).1
    "not json" "SyntaxError" rfl

end DidYouCode